import Mathlib

/-!
Verification development for the luxbin-quantum-loop repository.

This file gives a shallow embedding of the repository code that the
claims are about: the LUXBIN triple-channel codebook and its
nearest-value decode, the statistical outcome decoder `decode_counts`,
the consensus aggregation step, the pipeline phase sequences of the
three pipeline scripts, the persistent-loop controller (reset on error,
graceful shutdown, loop record) and the `save_loop_result` persistence
helper.

Modelling conventions:
- Python floats are modelled as rationals; every table constant in the
  source has at most three decimal digits, so the embedding is exact.
- Fallible Python operations (`int(bitstring, 2)`) are modelled with
  Except; an `Except.error` models a raised exception.
- The iteration order of a Python `set` is unspecified (string hashing
  is randomized per process), so code such as
  `max(set(votes), key=votes.count)` is modelled as a function of an
  extra parameter ranging over the duplicate-free orderings of the
  distinct votes.
- A Python dict preserves insertion order, so an outcome-count dict is
  modelled as an association list in insertion order.
-/

set_option maxRecDepth 100000

namespace Luxbin

/-- Light channel codebook `CHAR_WAVELENGTHS` (luxbin_persistent_loop.py
lines 32-39, duplicated in the other sources), in table order. -/
def CHAR_WAVELENGTHS : List (Char × ℚ) :=
  [('A', 400), ('B', 4039/10), ('C', 4078/10), ('D', 4117/10), ('E', 4156/10),
   ('F', 4195/10), ('G', 4234/10), ('H', 4273/10), ('I', 4312/10), ('J', 4351/10),
   ('K', 439), ('L', 4429/10), ('M', 4468/10), ('N', 4506/10), ('O', 4545/10),
   ('P', 4584/10), ('Q', 4623/10), ('R', 4662/10), ('S', 4701/10), ('T', 474),
   ('U', 4779/10), ('V', 4818/10), ('W', 4857/10), ('X', 4896/10), ('Y', 4935/10),
   ('Z', 4974/10), (' ', 5403/10)]

/-- Sound channel codebook `CHAR_FREQUENCIES` (lines 40-47), in table order. -/
def CHAR_FREQUENCIES : List (Char × ℚ) :=
  [('A', 440), ('B', 4939/10), ('C', 5233/10), ('D', 5873/10), ('E', 6593/10),
   ('F', 6985/10), ('G', 784), ('H', 8306/10), ('I', 880), ('J', 9323/10),
   ('K', 9878/10), ('L', 10465/10), ('M', 11087/10), ('N', 11747/10), ('O', 12445/10),
   ('P', 13185/10), ('Q', 13969/10), ('R', 1480), ('S', 1568), ('T', 16612/10),
   ('U', 1760), ('V', 18647/10), ('W', 19755/10), ('X', 2093), ('Y', 22175/10),
   ('Z', 23493/10), (' ', 2626/10)]

/-- Microwave channel codebook `CHAR_MICROWAVES` (lines 48-55), in table order. -/
def CHAR_MICROWAVES : List (Char × ℚ) :=
  [('A', 4), ('B', 4154/1000), ('C', 4308/1000), ('D', 4462/1000), ('E', 4615/1000),
   ('F', 4769/1000), ('G', 4923/1000), ('H', 5077/1000), ('I', 5231/1000), ('J', 5385/1000),
   ('K', 5538/1000), ('L', 5692/1000), ('M', 5846/1000), ('N', 6), ('O', 6154/1000),
   ('P', 6308/1000), ('Q', 6462/1000), ('R', 6615/1000), ('S', 6769/1000), ('T', 6923/1000),
   ('U', 7077/1000), ('V', 7231/1000), ('W', 7385/1000), ('X', 7538/1000), ('Y', 7692/1000),
   ('Z', 7846/1000), (' ', 55/10)]

/-- Constant `MW_MIN` (line 56). -/
def MW_MIN : ℚ := 4

/-- Constant `MW_MAX` (line 56). -/
def MW_MAX : ℚ := 8

/-- Embeds `min(table.items(), key=lambda x: abs(x[1] - target))[0]`: Python `min`
keeps the first item and replaces it only when a later item has a strictly
smaller key, so the first entry of minimal distance wins. The empty-table
case is unreachable (the tables are fixed and non-empty). -/
def nearestChar (table : List (Char × ℚ)) (x : ℚ) : Char :=
  match table with
  | [] => ' '
  | p :: rest =>
      (rest.foldl (fun best q => if abs (q.2 - x) < abs (best.2 - x) then q else best) p).1

/-- Function `wavelength_to_char` (lines 58-59). -/
def wavelength_to_char (wl : ℚ) : Char := nearestChar CHAR_WAVELENGTHS wl

/-- Function `frequency_to_char` (lines 60-61). -/
def frequency_to_char (freq : ℚ) : Char := nearestChar CHAR_FREQUENCIES freq

/-- Function `microwave_to_char` (lines 62-63). -/
def microwave_to_char (mw : ℚ) : Char := nearestChar CHAR_MICROWAVES mw

/-- One digit of Python `int(s, 2)`: a character other than 0 or 1 raises
`ValueError`. -/
def binDigit (c : Char) : Except String Nat :=
  if c = '0' then Except.ok 0
  else if c = '1' then Except.ok 1
  else Except.error ("invalid literal for int with base 2")

/-- Python `int(bitstring, 2)` (line 69): parses a non-empty string of
binary digits; an empty string raises `ValueError`. -/
def pyIntBase2 (s : String) : Except String Nat :=
  if s.isEmpty then Except.error ("invalid literal for int with base 2")
  else s.data.foldlM (fun acc c => (binDigit c).map (fun d => 2 * acc + d)) 0

/-- Key-insertion step of a Python `collections.Counter` (a dict): a new
key is appended, an existing key keeps its position. -/
def insertKey (ks : List Char) (c : Char) : List Char :=
  if c ∈ ks then ks else ks ++ [c]

/-- The keys of `Counter(votes)` in insertion order (= order of first
occurrence in `votes`). -/
def counterKeys (vs : List Char) : List Char := vs.foldl insertKey []

/-- Python `max(iterable, key=k)` accumulator: the current best is replaced
only when a later element has a strictly greater key, so the first
element attaining the maximum wins. -/
def pyMaxByAux (k : Char → Nat) : List Char → Char → Char
  | [], best => best
  | c :: cs, best => pyMaxByAux k cs (if k c > k best then c else best)

/-- Python `max(iterable, key=k)` over a list of characters. Python raises
on an empty iterable; the `' '` default is unreachable at every call site
(the vote lists always have three entries). -/
def pyMaxBy (k : Char → Nat) : List Char → Char
  | [] => ' '
  | c :: cs => pyMaxByAux k cs c

/-- Embeds `Counter(votes).most_common(1)[0]` (line 76): the first-inserted key
attaining the maximal multiplicity, paired with that multiplicity
(`heapq.nlargest` sorts stably and descending, so among equal counts the
earlier-inserted key wins). -/
def mostCommon1 (vs : List Char) : Char × Nat :=
  let w := pyMaxBy (fun c => vs.count c) (counterKeys vs)
  (w, vs.count w)

/-- Per-position vote resolution of `decode_counts` (lines 75-77):
`votes = [light, sound, mw]; winner = Counter(votes).most_common(1)[0];
winner[0] if winner[1] >= 2 else votes[0]`. -/
def resolveVotes (light sound mw : Char) : Char :=
  let votes := [light, sound, mw]
  let winner := mostCommon1 votes
  if winner.2 ≥ 2 then winner.1 else light

/-- Insertion step of Python `sorted(counts.items(), key=lambda x: -x[1])`:
walk past entries with strictly greater count, so that among equal counts
the earlier entry stays first (Python sort is stable). -/
def insertDesc (p : String × Nat) : List (String × Nat) → List (String × Nat)
  | [] => [p]
  | q :: qs => if p.2 < q.2 then q :: insertDesc p qs else p :: q :: qs

/-- Stable descending sort by occurrence count, modelling
`sorted(counts.items(), key=lambda x: -x[1])` (line 66). The input list is
the outcome dict in insertion order. -/
def sortCountsDesc : List (String × Nat) → List (String × Nat)
  | [] => []
  | p :: ps => insertDesc p (sortCountsDesc ps)

/-- Embeds `sorted_counts[:n_chars]` (line 68). -/
def rankedCounts (counts : List (String × Nat)) (n : Nat) : List (String × Nat) :=
  (sortCountsDesc counts).take n

/-- The ranked keys handed to the per-key decode. -/
def rankedKeys (counts : List (String × Nat)) (n : Nat) : List String :=
  (rankedCounts counts n).map (fun p => p.1)

/-- Body of the decode loop for one ranked key (lines 68-78): parse the
bitstring, derive the shared ratio and the three channel values, vote.
Python computes `value = int(bitstring, 2)` before the width guard, so an
empty key raises before `ratio = ... if max_val > 0 else 0.5` can apply. -/
def decodeKey (bitstring : String) : Except String (Char × ℚ × ℚ × ℚ) :=
  (pyIntBase2 bitstring).map (fun value =>
    let maxVal : Nat := 2 ^ bitstring.length - 1
    let ratio : ℚ := if maxVal > 0 then (value : ℚ) / (maxVal : ℚ) else 1/2
    let wl : ℚ := 400 + ratio * 300
    let freq : ℚ := 2626/10 + ratio * (23493/10 - 2626/10)
    let mw : ℚ := MW_MIN + ratio * (MW_MAX - MW_MIN)
    (resolveVotes (wavelength_to_char wl) (frequency_to_char freq) (microwave_to_char mw),
     wl, freq, mw))

/-- Function `decode_counts` (lines 65-79, identical in
luxbin_quantum_full_experiment.py lines 117-157 and luxbin_ibm_live.py
lines 80-103): rank the outcome keys by count, decode the top `n_chars`
keys, and return the decoded characters together with the per-position
channel values. An `Except.error` models the raised exception. -/
def decode_counts (counts : List (String × Nat)) (n_chars : Nat := 5) :
    Except String (List Char × List ℚ × List ℚ × List ℚ) :=
  ((rankedCounts counts n_chars).mapM (fun p => decodeKey p.1)).map (fun ds =>
    (ds.map (fun d => d.1), ds.map (fun d => d.2.1),
     ds.map (fun d => d.2.2.1), ds.map (fun d => d.2.2.2)))

/-- The padding loop `while len(consensus) < 5: consensus += majority`
(luxbin_persistent_loop.py lines 263-264, luxbin_ibm_live.py lines
364-365, luxbin_quantum_full_experiment.py lines 433-434). -/
def padWhileGo (majority : Char) : Nat → List Char → List Char
  | 0, consensus => consensus
  | fuel + 1, consensus =>
      if consensus.length < 5 then padWhileGo majority fuel (consensus ++ [majority])
      else consensus

/-- The loop runs at most 5 times (each pass appends one character and the
guard is `length < 5`), so 5 steps of fuel compute it exactly. -/
def padWhile (majority : Char) (consensus : List Char) : List Char :=
  padWhileGo majority 5 consensus

/-- The consensus aggregate step (luxbin_persistent_loop.py lines 261-265,
identical in luxbin_ibm_live.py lines 361-366 and, over
`vote_chars`, luxbin_quantum_full_experiment.py lines 430-435):
`majority = max(set(votes), key=votes.count)` followed by concatenation,
right-padding with the majority to length 5 and truncation to 5.
`setOrder` is the iteration order of the Python set `set(votes)`, which
the language leaves unspecified; theorems quantify over every
duplicate-free ordering of the distinct votes. -/
def consensusAggregate (votes : List Char) (setOrder : List Char) : List Char :=
  let majority := pyMaxBy (fun c => votes.count c) setOrder
  (padWhile majority votes).take 5

/-- Parameter `setOrder` is a possible iteration order of `set(votes)`: no
duplicates, and exactly the members of `votes`. -/
def validSetOrder (votes setOrder : List Char) : Prop :=
  setOrder.Nodup ∧ (∀ c ∈ setOrder, c ∈ votes) ∧ (∀ c ∈ votes, c ∈ setOrder)

instance (votes setOrder : List Char) : Decidable (validSetOrder votes setOrder) := by
  unfold validSetOrder; infer_instance

/-- Modelled from the spec: the aggregate majority with ties between
equally frequent symbols broken by first-seen order in the vote list
(spec section 4.5). Stated only to be compared with the source
expression `max(set(votes), key=votes.count)`. -/
def specFirstSeenMajority (votes : List Char) : Char :=
  pyMaxBy (fun c => votes.count c) (counterKeys votes)

/-- One phase-tagged Oracle (hardware) call of a pipeline pass. -/
inductive Phase where
  | echo : Phase
  | relay : Nat → Phase
  | consensus : Phase
  | ping : Phase
  | pong : Phase
  | finalEcho : Phase
deriving DecidableEq, Repr

/-- The hardware calls of one iteration of the persistent loop
(luxbin_persistent_loop.py lines 223-287), in submission order: one echo
(lines 224-231), relay legs 1-3 (lines 233-241), one consensus call per
backend (lines 243-259), `for rally in range(2)` ping-pong rallies
(lines 268-279), and the final echo (lines 281-287). -/
def persistentLoopPhases : List Phase :=
  [Phase.echo]
    ++ [Phase.relay 1, Phase.relay 2, Phase.relay 3]
    ++ (List.range 3).map (fun _ => Phase.consensus)
    ++ (List.range 2).map (fun rally => if rally % 2 = 1 then Phase.pong else Phase.ping)
    ++ [Phase.finalEcho]

/-- The hardware calls of one full pass of
luxbin_quantum_full_experiment.py (lines 324-490), in submission order:
`for r in range(2)` echo rounds (line 324), `for leg in range(1, 4)`
relay legs (line 353), one consensus vote per node (lines 413-414),
`for rally in range(4)` ping-pong rallies (line 451), and the final echo
(lines 483-486). -/
def fullExperimentPhases : List Phase :=
  (List.range 2).map (fun _ => Phase.echo)
    ++ [Phase.relay 1, Phase.relay 2, Phase.relay 3]
    ++ (List.range 3).map (fun _ => Phase.consensus)
    ++ (List.range 4).map (fun rally => if rally % 2 = 1 then Phase.pong else Phase.ping)
    ++ [Phase.finalEcho]

/-- The hardware calls of one full pass of luxbin_ibm_live.py (lines
250-427), in submission order; structurally the same as the full
experiment: 2 echo rounds (line 261), 3 relay legs (line 295), 3
consensus votes (lines 348-350), 4 rallies (line 384), final echo
(lines 417-420). -/
def ibmLivePhases : List Phase :=
  (List.range 2).map (fun _ => Phase.echo)
    ++ [Phase.relay 1, Phase.relay 2, Phase.relay 3]
    ++ (List.range 3).map (fun _ => Phase.consensus)
    ++ (List.range 4).map (fun rally => if rally % 2 = 1 then Phase.pong else Phase.ping)
    ++ [Phase.finalEcho]

/-- Modelled from the spec: the phase sequence the claim asserts for a
full single pipeline pass — ECHO, ECHO, RELAY 1, RELAY 2, RELAY 3,
CONSENSUS (one call per node), PING, PONG, PING, PONG, FINAL ECHO. -/
def claimedPhaseSequence : List Phase :=
  [Phase.echo, Phase.echo, Phase.relay 1, Phase.relay 2, Phase.relay 3,
   Phase.consensus, Phase.consensus, Phase.consensus,
   Phase.ping, Phase.pong, Phase.ping, Phase.pong, Phase.finalEcho]

/-- The mutable state of the persistent-loop controller process that the
shutdown handler can see (luxbin_persistent_loop.py lines 183-215). -/
structure ControllerState where
  running : Bool
  loopNum : Nat
  totalJobs : Nat
  current : String
deriving DecidableEq, Repr

/-- The signal handler `shutdown` (lines 184-187): it only clears the
cooperative `running` flag (and emits a log line); nothing else in the
controller state is touched and no call is interrupted. -/
def shutdown (s : ControllerState) : ControllerState :=
  { s with running := false }

/-- The `while running` loop (line 214) at the granularity of hardware
phases. `signalAt` is the number of the iteration during which the
shutdown signal arrives (0 = before the first boundary check); the flag
is read at the boundary before iteration `i`, and the boundary checks
that happen before the signal arrives are those with `i ≤ signalAt`.
Inside the body no phase consults the flag, so a started iteration always
contributes its complete phase list. `fuel` bounds the unbounded loop for
the purpose of the model. -/
def loopTrace (signalAt : Nat) : Nat → Nat → List (List Phase)
  | 0, _ => []
  | fuel + 1, i =>
      if i ≤ signalAt then persistentLoopPhases :: loopTrace signalAt fuel (i + 1) else []

/-- The decoded response and job id of every hardware call of one
persistent-loop iteration, plus the completion-order vote results of the
consensus fan-out and the iteration order of `set(votes)`. The responses
are free parameters because the Oracle is an external stochastic service;
the embedding records how the iteration threads and stores them. -/
structure IterationOutcomes where
  echoResp : String
  echoJid : String
  relay1Resp : String
  relay1Jid : String
  relay2Resp : String
  relay2Jid : String
  relay3Resp : String
  relay3Jid : String
  votes : List (Char × String)
  setOrder : List Char
  ping1Resp : String
  ping1Jid : String
  ping2Resp : String
  ping2Jid : String
  finalResp : String
  finalJid : String
deriving Repr

/-- The `loop_data` record persisted at the end of a successful iteration
(luxbin_persistent_loop.py lines 293-302). -/
structure LoopData where
  loop : Nat
  timestamp : String
  input : String
  output : String
  jobs : List String
  job_count : Nat
  loop_time_seconds : ℚ
  total_jobs_all_time : Nat
deriving Repr

/-- The successful body of one persistent-loop iteration (lines 223-306):
thread the message through echo, relay legs, consensus, ping-pong and the
final echo, accumulate `jobs_this_loop`, build `loop_data`, and return it
together with the final-echo response that becomes the next input.
`current0` is the input message of the iteration, `ts` the timestamp and `lt`
the elapsed-seconds value. -/
def runIterationBody (_current0 : String) (o : IterationOutcomes)
    (loopNum totalJobs0 : Nat) (ts : String) (lt : ℚ) : LoopData × String :=
  -- ECHO (lines 224-231): current = decoded response
  let _current1 := o.echoResp
  let jobs1 := [o.echoJid]
  -- RELAY legs 1-3 (lines 233-241)
  let _current2 := o.relay1Resp
  let _current3 := o.relay2Resp
  let _current4 := o.relay3Resp
  let jobs4 := jobs1 ++ [o.relay1Jid, o.relay2Jid, o.relay3Jid]
  -- CONSENSUS (lines 243-266): votes in completion order, then aggregate
  let voteChars := o.votes.map (fun v => v.1)
  let jobs5 := jobs4 ++ o.votes.map (fun v => v.2)
  let _current5 := String.mk (consensusAggregate voteChars o.setOrder)
  -- PING-PONG rallies 0 and 1 (lines 268-279)
  let _current6 := o.ping1Resp
  let current7 := o.ping2Resp
  let jobs7 := jobs5 ++ [o.ping1Jid, o.ping2Jid]
  -- FINAL ECHO (lines 281-287): does not overwrite `current`
  let response := o.finalResp
  let jobs8 := jobs7 ++ [o.finalJid]
  -- lines 289-302: total_jobs += len(jobs_this_loop); build loop_data.
  -- At this point `current` still holds `current7`, the rally-2 response.
  let d : LoopData := {
    loop := loopNum
    timestamp := ts
    input := current7
    output := response
    jobs := jobs8
    job_count := jobs8.length
    loop_time_seconds := lt
    total_jobs_all_time := totalJobs0 + jobs8.length }
  -- line 306: current = response
  (d, response)

/-- Whether the guarded body of an iteration (the `try` block, lines
223-315) ran to completion or raised. Every raise point (the `run_hw`
calls of every phase and the decodes) precedes the `total_jobs` update
and the record save, so a raise is modelled as a single outcome. -/
inductive IterResult where
  | ok : IterationOutcomes → String → ℚ → IterResult
  | raise : String → IterResult

/-- The log events the controller emits after the body finishes or raises
(lines 308-319), abstracted from the formatted text. -/
inductive LogEvent where
  | loopComplete : Nat → String → String → LogEvent
  | waitingNormal : LogEvent
  | errorInLoop : Nat → String → LogEvent
  | waitingBackoff : LogEvent
deriving DecidableEq, Repr

/-- What one pass of the `while running` body produces. -/
structure StepResult where
  nextInput : String
  pauseSeconds : Nat
  record : Option LoopData
  totalJobs : Nat
  logs : List LogEvent

/-- One pass of the persistent-loop body with its exception handler
(lines 214-322): on success, save the record, pass the final response on
as the next input, and pause 10 s (only when still running, line 313); on
any raise, log the error, pause 30 s, and reset the next input to the
fixed default `"NICHE"` (lines 317-322). -/
def loopControllerStep (running : Bool) (current : String) (loopNum totalJobs : Nat)
    (r : IterResult) : StepResult :=
  match r with
  | IterResult.ok o ts lt =>
      let p := runIterationBody current o loopNum totalJobs ts lt
      { nextInput := p.2
        pauseSeconds := if running then 10 else 0
        record := some p.1
        totalJobs := p.1.total_jobs_all_time
        logs := [LogEvent.loopComplete loopNum p.1.input p.2]
          ++ (if running then [LogEvent.waitingNormal] else []) }
  | IterResult.raise e =>
      { nextInput := "NICHE"
        pauseSeconds := 30
        record := none
        totalJobs := totalJobs
        logs := [LogEvent.errorInLoop loopNum e, LogEvent.waitingBackoff] }

/-- The on-disk state `save_loop_result` finds (lines 167-178): the file
may be absent, present but unreadable/unparseable, or a parsed JSON array
of earlier records. -/
inductive LogFileState where
  | absent : LogFileState
  | unreadable : String → LogFileState
  | parsed : List LoopData → LogFileState

/-- Function `save_loop_result` (lines 167-178): read the whole file, fall back to
`results = []` when the file is absent or when reading/parsing raises
(`except: results = []`), append the new record, and rewrite the file
with exactly that array. The returned list is the full content written
back. -/
def save_loop_result (onDisk : LogFileState) (data : LoopData) : List LoopData :=
  let results : List LoopData :=
    match onDisk with
    | LogFileState.absent => []
    | LogFileState.unreadable _ => []
    | LogFileState.parsed rs => rs
  results ++ [data]

/-- Code-point lexicographic order on character lists, the order Python
uses to compare strings. -/
def charListLt : List Char → List Char → Bool
  | [], [] => false
  | [], _ :: _ => true
  | _ :: _, [] => false
  | a :: as, b :: bs =>
      if a.toNat < b.toNat then true
      else if b.toNat < a.toNat then false
      else charListLt as bs

/-- Lexicographic order on keys, Python string comparison. -/
def strLexLt (a b : String) : Bool := charListLt a.data b.data

/-- Modelled from the spec: insertion step of a ranking that orders by
count descending and breaks count ties by the natural (lexicographic)
order of the keys, as the ranking claim states (spec section 4.2 step 1).
Stated only to be compared with the stable source expression
`sorted(counts.items(), key=lambda x: -x[1])`. -/
def specLexInsert (p : String × Nat) : List (String × Nat) → List (String × Nat)
  | [] => [p]
  | q :: qs =>
      if p.2 < q.2 ∨ (p.2 = q.2 ∧ strLexLt q.1 p.1) then q :: specLexInsert p qs
      else p :: q :: qs

/-- Modelled from the spec: rank by count descending with lexicographic
tie-break on the key. -/
def specLexSort : List (String × Nat) → List (String × Nat)
  | [] => []
  | p :: ps => specLexInsert p (specLexSort ps)

/-- Modelled from the spec: the top `n` keys of the ranking of the spec. -/
def specLexRankedKeys (counts : List (String × Nat)) (n : Nat) : List String :=
  ((specLexSort counts).take n).map (fun p => p.1)

/-! ### Helper lemmas about the Python `max` accumulator -/

lemma pyMaxByAux_mem (k : Char → Nat) :
    ∀ (l : List Char) (m : Char), pyMaxByAux k l m ∈ m :: l := by
  intro l
  induction l with
  | nil => intro m; simp [pyMaxByAux]
  | cons c cs ih =>
    intro m
    by_cases hc : k c > k m
    · simp only [pyMaxByAux, if_pos hc]
      rcases List.mem_cons.mp (ih c) with h1 | h1
      · simp [h1]
      · simp [h1]
    · simp only [pyMaxByAux, if_neg hc]
      rcases List.mem_cons.mp (ih m) with h1 | h1
      · simp [h1]
      · simp [h1]

lemma pyMaxByAux_le (k : Char → Nat) :
    ∀ (l : List Char) (m x : Char), x ∈ m :: l → k x ≤ k (pyMaxByAux k l m) := by
  intro l
  induction l with
  | nil =>
    intro m x hx
    have hxm : x = m := by simpa using hx
    simp [pyMaxByAux, hxm]
  | cons c cs ih =>
    intro m x hx
    by_cases hc : k c > k m
    · simp only [pyMaxByAux, if_pos hc]
      rcases List.mem_cons.mp hx with h1 | h1
      · have hxc : k x ≤ k c := by rw [h1]; omega
        exact le_trans hxc (ih c c (List.mem_cons_self c cs))
      · exact ih c x h1
    · simp only [pyMaxByAux, if_neg hc]
      rcases List.mem_cons.mp hx with h1 | h1
      · rw [h1]; exact ih m m (List.mem_cons_self m cs)
      · rcases List.mem_cons.mp h1 with h2 | h2
        · have hxm : k x ≤ k m := by rw [h2]; omega
          exact le_trans hxm (ih m m (List.mem_cons_self m cs))
        · exact ih m x (List.mem_cons_of_mem m h2)

lemma pyMaxBy_mem (k : Char → Nat) (l : List Char) (h : l ≠ []) : pyMaxBy k l ∈ l := by
  cases l with
  | nil => exact absurd rfl h
  | cons c cs => exact pyMaxByAux_mem k cs c

lemma pyMaxBy_le (k : Char → Nat) (l : List Char) :
    ∀ x ∈ l, k x ≤ k (pyMaxBy k l) := by
  cases l with
  | nil => intro x hx; exact absurd hx (List.not_mem_nil x)
  | cons c cs => intro x hx; exact pyMaxByAux_le k cs c x hx

lemma pyMaxByAux_unique (k : Char → Nat) (u : Char) :
    ∀ (l : List Char) (m : Char), (∀ c ∈ l, c ≠ u → k c < k u) →
      (m = u ∨ (k m < k u ∧ u ∈ l)) → pyMaxByAux k l m = u := by
  intro l
  induction l with
  | nil =>
    intro m _ hm
    rcases hm with h | h
    · simp [pyMaxByAux, h]
    · exact absurd h.2 (List.not_mem_nil u)
  | cons c cs ih =>
    intro m hlt hm
    simp only [pyMaxByAux]
    have hrest : ∀ d ∈ cs, d ≠ u → k d < k u :=
      fun d hd hdu => hlt d (List.mem_cons_of_mem c hd) hdu
    rcases hm with hmu | ⟨hmu, hu⟩
    · by_cases hcm : k c > k m
      · rw [if_pos hcm]
        by_cases hcu : c = u
        · exact ih c hrest (Or.inl hcu)
        · have hck : k c < k u := hlt c (List.mem_cons_self c cs) hcu
          have hk : k m = k u := by rw [hmu]
          exfalso; omega
      · rw [if_neg hcm]
        exact ih m hrest (Or.inl hmu)
    · by_cases hcu : c = u
      · have hk : k c = k u := by rw [hcu]
        have hcm : k c > k m := by omega
        rw [if_pos hcm]
        exact ih c hrest (Or.inl hcu)
      · have hu2 : u ∈ cs := by
          rcases List.mem_cons.mp hu with h | h
          · exact absurd h.symm hcu
          · exact h
        have hck : k c < k u := hlt c (List.mem_cons_self c cs) hcu
        by_cases hcm : k c > k m
        · rw [if_pos hcm]
          exact ih c hrest (Or.inr ⟨hck, hu2⟩)
        · rw [if_neg hcm]
          exact ih m hrest (Or.inr ⟨hmu, hu2⟩)

lemma pyMaxBy_unique (k : Char → Nat) (l : List Char) (u : Char) (hu : u ∈ l)
    (hlt : ∀ c ∈ l, c ≠ u → k c < k u) : pyMaxBy k l = u := by
  cases l with
  | nil => exact absurd hu (List.not_mem_nil u)
  | cons c cs =>
    simp only [pyMaxBy]
    by_cases hcu : c = u
    · exact pyMaxByAux_unique k u cs c
        (fun d hd hdu => hlt d (List.mem_cons_of_mem c hd) hdu) (Or.inl hcu)
    · have hu2 : u ∈ cs := by
        rcases List.mem_cons.mp hu with h | h
        · exact absurd h.symm hcu
        · exact h
      have hck : k c < k u := hlt c (List.mem_cons_self c cs) hcu
      exact pyMaxByAux_unique k u cs c
        (fun d hd hdu => hlt d (List.mem_cons_of_mem c hd) hdu) (Or.inr ⟨hck, hu2⟩)

/-! ### Helper lemmas about the stable descending sort -/

lemma insertDesc_perm (p : String × Nat) :
    ∀ l : List (String × Nat), List.Perm (insertDesc p l) (p :: l) := by
  intro l
  induction l with
  | nil => simp [insertDesc]
  | cons q qs ih =>
    simp only [insertDesc]
    split
    · exact (ih.cons q).trans (List.Perm.swap p q qs)
    · exact List.Perm.refl _

lemma sortCountsDesc_perm :
    ∀ l : List (String × Nat), List.Perm (sortCountsDesc l) l := by
  intro l
  induction l with
  | nil => simp [sortCountsDesc]
  | cons p ps ih => exact (insertDesc_perm p (sortCountsDesc ps)).trans (ih.cons p)

lemma insertDesc_sorted (p : String × Nat) :
    ∀ l : List (String × Nat), List.Pairwise (fun a b => b.2 ≤ a.2) l →
      List.Pairwise (fun a b => b.2 ≤ a.2) (insertDesc p l) := by
  intro l
  induction l with
  | nil => intro _; simp [insertDesc]
  | cons q qs ih =>
    intro hs
    rcases List.pairwise_cons.mp hs with ⟨hq, hqs⟩
    simp only [insertDesc]
    split
    · refine List.pairwise_cons.mpr ⟨?_, ih hqs⟩
      intro x hx
      rcases List.mem_cons.mp ((insertDesc_perm p qs).mem_iff.mp hx) with h1 | h1
      · subst h1; omega
      · exact hq x h1
    · refine List.pairwise_cons.mpr ⟨?_, hs⟩
      intro x hx
      rcases List.mem_cons.mp hx with h1 | h1
      · subst h1; omega
      · have := hq x h1; omega

lemma sortCountsDesc_sorted :
    ∀ l : List (String × Nat), List.Pairwise (fun a b => b.2 ≤ a.2) (sortCountsDesc l) := by
  intro l
  induction l with
  | nil => simp [sortCountsDesc]
  | cons p ps ih => exact insertDesc_sorted p (sortCountsDesc ps) ih

lemma insertDesc_filter (p : String × Nat) (k : Nat) :
    ∀ l : List (String × Nat),
      (insertDesc p l).filter (fun q => q.2 == k) =
        if p.2 = k then p :: l.filter (fun q => q.2 == k)
        else l.filter (fun q => q.2 == k) := by
  intro l
  induction l with
  | nil =>
    by_cases hp : p.2 = k
    · simp [insertDesc, List.filter_cons, beq_iff_eq, hp]
    · simp [insertDesc, List.filter_cons, beq_iff_eq, hp]
  | cons q qs ih =>
    simp only [insertDesc]
    split
    · rename_i hlt
      by_cases hp : p.2 = k
      · have hq : ¬ (q.2 = k) := by omega
        simp [List.filter_cons, beq_iff_eq, hp, hq, ih]
      · simp [List.filter_cons, beq_iff_eq, hp, ih]
    · by_cases hp : p.2 = k
      · simp [List.filter_cons, beq_iff_eq, hp]
      · simp [List.filter_cons, beq_iff_eq, hp]

lemma sortCountsDesc_filter (k : Nat) :
    ∀ l : List (String × Nat),
      (sortCountsDesc l).filter (fun q => q.2 == k) = l.filter (fun q => q.2 == k) := by
  intro l
  induction l with
  | nil => simp [sortCountsDesc]
  | cons p ps ih =>
    simp only [sortCountsDesc]
    rw [insertDesc_filter p k (sortCountsDesc ps)]
    by_cases hp : p.2 = k
    · simp [List.filter_cons, beq_iff_eq, hp, ih]
    · simp [List.filter_cons, beq_iff_eq, hp, ih]

/-! ### Computation lemmas for the per-position vote resolution -/

lemma count_three (c l s m : Char) :
    [l, s, m].count c =
      (if l = c then 1 else 0) + (if s = c then 1 else 0) + (if m = c then 1 else 0) := by
  simp only [List.count_cons, List.count_nil, beq_iff_eq]
  omega

lemma resolveVotes_all_eq (l : Char) : resolveVotes l l l = l := by
  simp [resolveVotes, mostCommon1, pyMaxBy, pyMaxByAux, counterKeys, insertKey]

lemma resolveVotes_ls (l m : Char) (h : l ≠ m) : resolveVotes l l m = l := by
  simp [resolveVotes, mostCommon1, pyMaxBy, pyMaxByAux, counterKeys, insertKey,
    List.count_cons, List.count_nil, beq_iff_eq, h, Ne.symm h]

lemma resolveVotes_lm (l s : Char) (h : l ≠ s) : resolveVotes l s l = l := by
  simp [resolveVotes, mostCommon1, pyMaxBy, pyMaxByAux, counterKeys, insertKey,
    List.count_cons, List.count_nil, beq_iff_eq, h, Ne.symm h]

lemma resolveVotes_sm (l s : Char) (h : l ≠ s) : resolveVotes l s s = s := by
  simp [resolveVotes, mostCommon1, pyMaxBy, pyMaxByAux, counterKeys, insertKey,
    List.count_cons, List.count_nil, beq_iff_eq, h, Ne.symm h]

lemma resolveVotes_distinct (l s m : Char) (h1 : l ≠ s) (h2 : l ≠ m) (h3 : s ≠ m) :
    resolveVotes l s m = l := by
  simp [resolveVotes, mostCommon1, pyMaxBy, pyMaxByAux, counterKeys, insertKey,
    List.count_cons, List.count_nil, beq_iff_eq,
    h1, h2, h3, Ne.symm h1, Ne.symm h2, Ne.symm h3]

/-! ### Computation lemma for the loop trace -/

lemma loopTrace_eq_replicate (signalAt : Nat) :
    ∀ (fuel i : Nat), signalAt + 1 - i ≤ fuel →
      loopTrace signalAt fuel i = List.replicate (signalAt + 1 - i) persistentLoopPhases := by
  intro fuel
  induction fuel with
  | zero =>
    intro i h
    have h0 : signalAt + 1 - i = 0 := by omega
    simp [loopTrace, h0]
  | succ f ih =>
    intro i h
    by_cases hi : i ≤ signalAt
    · have h2 : signalAt + 1 - (i + 1) ≤ f := by omega
      have h3 : signalAt + 1 - i = (signalAt + 1 - (i + 1)) + 1 := by omega
      rw [loopTrace, if_pos hi, ih (i + 1) h2, h3, List.replicate_succ]
    · have h0 : signalAt + 1 - i = 0 := by omega
      rw [loopTrace, if_neg hi, h0, List.replicate_zero]

/-! ### Claim theorems -/

/-- C1: for every outcome distribution and every decoded position, the
decoder resolves the three channel votes (Light, Sound, Microwave) as
follows: a symbol appearing in at least 2 of the 3 votes is the decoded
symbol; otherwise the Light-channel vote is the decoded symbol; in
particular when all three votes differ the decoded symbol equals the
Light-channel vote. `resolveVotes l s m` is exactly the resolution that
`decode_counts` (through `decodeKey`) applies to the three channel votes
of every decoded position, for arbitrary votes `l`, `s`, `m`. -/
theorem decode_vote_resolution (l s m : Char) :
    (∀ c : Char, 2 ≤ [l, s, m].count c → resolveVotes l s m = c) ∧
    ((∀ c : Char, [l, s, m].count c ≤ 1) → resolveVotes l s m = l) ∧
    (l ≠ s → l ≠ m → s ≠ m → resolveVotes l s m = l) := by
  refine ⟨?_, ?_, ?_⟩
  · intro c hc
    by_cases h1 : l = c <;> by_cases h2 : s = c <;> by_cases h3 : m = c
    · rw [h1, h2, h3]; exact resolveVotes_all_eq c
    · rw [h1, h2]; exact resolveVotes_ls c m (Ne.symm h3)
    · rw [h1, h3]; exact resolveVotes_lm c s (Ne.symm h2)
    · rw [count_three, if_pos h1, if_neg h2, if_neg h3] at hc; omega
    · rw [h2, h3]; exact resolveVotes_sm l c h1
    · rw [count_three, if_neg h1, if_pos h2, if_neg h3] at hc; omega
    · rw [count_three, if_neg h1, if_neg h2, if_pos h3] at hc; omega
    · rw [count_three, if_neg h1, if_neg h2, if_neg h3] at hc; omega
  · intro hall
    have hsl : s ≠ l := by
      intro h
      have hx := hall l
      rw [count_three, if_pos rfl, if_pos h] at hx
      omega
    have hml : m ≠ l := by
      intro h
      have hx := hall l
      rw [count_three, if_pos rfl, if_pos h] at hx
      omega
    have hms : m ≠ s := by
      intro h
      have hx := hall s
      rw [count_three, if_pos rfl, if_pos h] at hx
      omega
    exact resolveVotes_distinct l s m (Ne.symm hsl) (Ne.symm hml) (Ne.symm hms)
  · intro h1 h2 h3
    exact resolveVotes_distinct l s m h1 h2 h3

/-- Witness for C1: a doubled vote wins; three distinct votes fall back to
the Light vote. -/
theorem decode_vote_resolution_witness :
    resolveVotes 'A' 'A' 'B' = 'A' ∧ resolveVotes 'A' 'B' 'C' = 'A' :=
  ⟨(decode_vote_resolution 'A' 'A' 'B').1 'A' (by decide),
   (decode_vote_resolution 'A' 'B' 'C').2.2 (by decide) (by decide) (by decide)⟩

/-- C2 counterexample: the aggregate majority `max(set(votes),
key=votes.count)` breaks ties by the iteration order of the set, not by
first-seen order in the vote list. With votes A, B, C (all counts equal)
and the possible set order B, C, A the code yields B while the claimed
first-seen tie-break yields A. -/
theorem consensus_tiebreak_counterexample :
    validSetOrder ['A', 'B', 'C'] ['B', 'C', 'A'] ∧
    pyMaxBy (fun c => List.count c ['A', 'B', 'C']) ['B', 'C', 'A'] = 'B' ∧
    specFirstSeenMajority ['A', 'B', 'C'] = 'A' ∧
    pyMaxBy (fun c => List.count c ['A', 'B', 'C']) ['B', 'C', 'A'] ≠
      specFirstSeenMajority ['A', 'B', 'C'] := by
  refine ⟨by decide, by decide, by decide, by decide⟩

/-- C2 (amended): the aggregate majority is a symbol of maximal
occurrence count among the votes — with ties resolved by the unspecified
iteration order of `set(votes)`, not necessarily first-seen order; the
resulting message is the concatenation of the N = 3 vote symbols padded
on the right with the majority to length exactly 5; and for votes
A, A, B the majority is A under every possible set order. -/
theorem consensus_aggregate_amended :
    (∀ (votes setOrder : List Char), validSetOrder votes setOrder → votes ≠ [] →
        pyMaxBy (fun c => votes.count c) setOrder ∈ votes ∧
        ∀ c ∈ votes, votes.count c ≤ votes.count (pyMaxBy (fun c => votes.count c) setOrder)) ∧
    (∀ (votes setOrder : List Char), votes.length = 3 →
        consensusAggregate votes setOrder =
          votes ++ [pyMaxBy (fun c => votes.count c) setOrder,
            pyMaxBy (fun c => votes.count c) setOrder] ∧
        (consensusAggregate votes setOrder).length = 5) ∧
    (∀ setOrder : List Char, validSetOrder ['A', 'A', 'B'] setOrder →
        pyMaxBy (fun c => List.count c ['A', 'A', 'B']) setOrder = 'A' ∧
        consensusAggregate ['A', 'A', 'B'] setOrder = ['A', 'A', 'B', 'A', 'A']) := by
  refine ⟨?_, ?_, ?_⟩
  · intro votes so hvalid hne
    obtain ⟨hnd, hso, hvs⟩ := hvalid
    have hsone : so ≠ [] := by
      cases votes with
      | nil => exact absurd rfl hne
      | cons v vs =>
        intro h
        have := hvs v (List.mem_cons_self v vs)
        rw [h] at this
        exact absurd this (List.not_mem_nil v)
    constructor
    · exact hso _ (pyMaxBy_mem (fun d => votes.count d) so hsone)
    · intro c hc
      exact pyMaxBy_le (fun d => votes.count d) so c (hvs c hc)
  · intro votes so h3
    obtain ⟨a, b, c, rfl⟩ := List.length_eq_three.mp h3
    constructor
    · simp [consensusAggregate, padWhile, padWhileGo]
    · simp [consensusAggregate, padWhile, padWhileGo]
  · intro so hvalid
    obtain ⟨hnd, hso, hvs⟩ := hvalid
    have hA : 'A' ∈ so := hvs 'A' (by decide)
    have hmaj : pyMaxBy (fun c => List.count c ['A', 'A', 'B']) so = 'A' := by
      apply pyMaxBy_unique _ so 'A' hA
      intro c hc hne
      have hcv : c ∈ (['A', 'A', 'B'] : List Char) := hso c hc
      have hcB : c = 'B' := by
        rcases List.mem_cons.mp hcv with h | h
        · exact absurd h hne
        · rcases List.mem_cons.mp h with h2 | h2
          · exact absurd h2 hne
          · rcases List.mem_cons.mp h2 with h3 | h3
            · exact h3
            · exact absurd h3 (List.not_mem_nil c)
      rw [hcB]
      decide
    refine ⟨hmaj, ?_⟩
    simp only [consensusAggregate]
    rw [hmaj]
    decide

/-- Witness for C2: a concrete valid set order for votes A, A, B. -/
theorem consensus_aggregate_amended_witness :
    pyMaxBy (fun c => List.count c ['A', 'A', 'B']) ['B', 'A'] = 'A' ∧
    consensusAggregate ['A', 'A', 'B'] ['B', 'A'] = ['A', 'A', 'B', 'A', 'A'] :=
  consensus_aggregate_amended.2.2 ['B', 'A'] (by decide)

/-- C3 counterexample: one iteration of the persistent loop does not
submit the claimed sequence — it runs a single initial echo round and
only two ping-pong rallies. -/
theorem phase_order_counterexample :
    persistentLoopPhases ≠ claimedPhaseSequence := by decide

/-- C3 (amended): the full-experiment pipeline and the live-hardware
pipeline submit exactly the claimed sequence ECHO, ECHO, RELAY 1-3,
CONSENSUS (one call per node), PING, PONG, PING, PONG, FINAL ECHO; the
persistent-loop iteration instead submits ECHO, RELAY 1-3, CONSENSUS
(one call per node), PING, PONG, FINAL ECHO — one echo round and two
rallies. -/
theorem phase_order_amended :
    fullExperimentPhases = claimedPhaseSequence ∧
    ibmLivePhases = claimedPhaseSequence ∧
    persistentLoopPhases =
      [Phase.echo, Phase.relay 1, Phase.relay 2, Phase.relay 3,
       Phase.consensus, Phase.consensus, Phase.consensus,
       Phase.ping, Phase.pong, Phase.finalEcho] := by
  refine ⟨by decide, by decide, by decide⟩

/-- C4: codebook round-trip — for every one of the 27 symbols (A-Z and
space) and every channel, the nearest-value lookup of the own
channel value returns the symbol. -/
theorem codebook_roundtrip :
    (∀ p ∈ CHAR_WAVELENGTHS, wavelength_to_char p.2 = p.1) ∧
    (∀ p ∈ CHAR_FREQUENCIES, frequency_to_char p.2 = p.1) ∧
    (∀ p ∈ CHAR_MICROWAVES, microwave_to_char p.2 = p.1) ∧
    CHAR_WAVELENGTHS.map Prod.fst = "ABCDEFGHIJKLMNOPQRSTUVWXYZ ".data ∧
    CHAR_FREQUENCIES.map Prod.fst = "ABCDEFGHIJKLMNOPQRSTUVWXYZ ".data ∧
    CHAR_MICROWAVES.map Prod.fst = "ABCDEFGHIJKLMNOPQRSTUVWXYZ ".data := by
  refine ⟨?_, ?_, ?_, by decide, by decide, by decide⟩
  · with_unfolding_all decide
  · with_unfolding_all decide
  · with_unfolding_all decide

/-- Witness for C4 at symbol A on the Light channel. -/
theorem codebook_roundtrip_witness :
    wavelength_to_char 400 = 'A' :=
  codebook_roundtrip.1 ('A', 400) (List.mem_cons_self _ _)

/-- C5: reset-on-error — when any phase of an iteration raises, the next
input message of the next iteration is the fixed default NICHE (independent of the
current message and of any partial output), no record is saved, the
failure is logged, and the fixed 30 s backoff is waited, longer than the
normal 10 s pause. -/
theorem reset_on_error (running : Bool) (current : String) (loopNum totalJobs : Nat)
    (e : String) (o : IterationOutcomes) (ts : String) (lt : ℚ) :
    (loopControllerStep running current loopNum totalJobs (IterResult.raise e)).nextInput =
      "NICHE" ∧
    (loopControllerStep running current loopNum totalJobs (IterResult.raise e)).record = none ∧
    (loopControllerStep running current loopNum totalJobs (IterResult.raise e)).pauseSeconds =
      30 ∧
    (loopControllerStep running current loopNum totalJobs (IterResult.raise e)).logs =
      [LogEvent.errorInLoop loopNum e, LogEvent.waitingBackoff] ∧
    (loopControllerStep true current loopNum totalJobs (IterResult.ok o ts lt)).pauseSeconds =
      10 ∧
    (loopControllerStep true current loopNum totalJobs (IterResult.ok o ts lt)).pauseSeconds <
      (loopControllerStep running current loopNum totalJobs (IterResult.raise e)).pauseSeconds := by
  refine ⟨rfl, rfl, rfl, rfl, rfl, ?_⟩
  show (10 : Nat) < 30
  decide

/-- C6 (code bug): a zero-width outcome key does not reach the 0.5 ratio
fallback — `int(bitstring, 2)` raises on the empty key first, so decoding
such a key raises instead of substituting the neutral ratio. -/
theorem zero_width_key_raises (cnt : Nat) :
    decodeKey "" = Except.error ("invalid literal for int with base 2") ∧
    decode_counts [("", cnt)] 5 = Except.error ("invalid literal for int with base 2") :=
  ⟨rfl, rfl⟩

/-- C7 counterexample: two keys with equal counts are ranked in the
insertion order of the distribution, not in lexicographic order — on the
distribution with entries 10 and 01 (counts equal) the decoder ranks 10
first while the claimed lexicographic tie-break ranks 01 first. -/
theorem ranking_tiebreak_counterexample :
    rankedKeys [("10", 5), ("01", 5)] 2 = ["10", "01"] ∧
    specLexRankedKeys [("10", 5), ("01", 5)] 2 = ["01", "10"] ∧
    rankedKeys [("10", 5), ("01", 5)] 2 ≠ specLexRankedKeys [("10", 5), ("01", 5)] 2 := by
  refine ⟨by decide, by decide, by decide⟩

/-- C7 (amended): the decoder ranks the outcome keys by occurrence count
descending with a stable sort — equal counts keep the original
iteration (insertion) order, not lexicographic order — and decodes the
top `n` ranked keys, yielding `min n (number of keys)` positions. -/
theorem ranking_amended :
    (∀ counts : List (String × Nat), List.Perm (sortCountsDesc counts) counts) ∧
    (∀ counts : List (String × Nat),
        List.Pairwise (fun a b => b.2 ≤ a.2) (sortCountsDesc counts)) ∧
    (∀ (counts : List (String × Nat)) (k : Nat),
        (sortCountsDesc counts).filter (fun q => q.2 == k) =
          counts.filter (fun q => q.2 == k)) ∧
    (∀ (counts : List (String × Nat)) (n : Nat),
        (rankedKeys counts n).length = min n counts.length) := by
  refine ⟨sortCountsDesc_perm, sortCountsDesc_sorted,
    fun counts k => sortCountsDesc_filter k counts, ?_⟩
  intro counts n
  simp [rankedKeys, rankedCounts, (sortCountsDesc_perm counts).length_eq]

/-- C8: graceful shutdown — the shutdown signal only clears the
cooperative flag (every other state field is untouched); the flag is
consulted at iteration boundaries, so when the signal arrives during
iteration `signalAt`, every started iteration contributes its complete
phase list (no phase is aborted mid-call), exactly `signalAt` iterations
run, and no further iteration starts. -/
theorem graceful_shutdown (s : ControllerState) (signalAt fuel : Nat)
    (h : signalAt ≤ fuel) :
    shutdown s = ControllerState.mk false s.loopNum s.totalJobs s.current ∧
    loopTrace signalAt fuel 1 = List.replicate signalAt persistentLoopPhases ∧
    (∀ t ∈ loopTrace signalAt fuel 1, t = persistentLoopPhases) ∧
    (loopTrace signalAt fuel 1).length = signalAt := by
  have htr : loopTrace signalAt fuel 1 = List.replicate signalAt persistentLoopPhases := by
    have h2 := loopTrace_eq_replicate signalAt fuel 1 (by omega)
    simpa using h2
  refine ⟨rfl, htr, ?_, ?_⟩
  · intro t ht
    rw [htr] at ht
    exact List.eq_of_mem_replicate ht
  · rw [htr, List.length_replicate]

/-- Witness for C8: signal during iteration 2 with fuel 3. -/
theorem graceful_shutdown_witness :
    loopTrace 2 3 1 = List.replicate 2 persistentLoopPhases ∧
    (loopTrace 2 3 1).length = 2 :=
  ⟨(graceful_shutdown ⟨true, 5, 7, "NICHE"⟩ 2 3 (by decide)).2.1,
   (graceful_shutdown ⟨true, 5, 7, "NICHE"⟩ 2 3 (by decide)).2.2.2⟩

/-- The outcomes of one concrete iteration whose phases change the
message: input NICHE, ping-pong rally 2 decodes to QQQQQ, final echo to
RRRRR. -/
def sampleOutcomes : IterationOutcomes :=
  { echoResp := "AAAAA"
    echoJid := "j1"
    relay1Resp := "BBBBB"
    relay1Jid := "j2"
    relay2Resp := "CCCCC"
    relay2Jid := "j3"
    relay3Resp := "DDDDD"
    relay3Jid := "j4"
    votes := [('E', "j5"), ('F', "j6"), ('G', "j7")]
    setOrder := ['E', 'F', 'G']
    ping1Resp := "PPPPP"
    ping1Jid := "j8"
    ping2Resp := "QQQQQ"
    ping2Jid := "j9"
    finalResp := "RRRRR"
    finalJid := "j10" }

/-- The record and next message of the concrete iteration: input NICHE,
loop number 1, no prior jobs, timestamp t0, 42 elapsed seconds. -/
def sampleRun : LoopData × String :=
  runIterationBody ("NICHE") sampleOutcomes 1 0 ("t0") 42

/-- C9 (code bug): the `input` field of the persisted record holds the
ping-pong output (the input of the final echo), not the message the iteration
started from — here the iteration starts from NICHE but the field
`input` is QQQQQ. The other fields hold the claimed values. -/
theorem loop_record_input_field :
    sampleRun.1.input = "QQQQQ" ∧
    sampleRun.1.input ≠ "NICHE" ∧
    sampleRun.1.output = "RRRRR" ∧
    sampleRun.1.jobs = ["j1", "j2", "j3", "j4", "j5", "j6", "j7", "j8", "j9", "j10"] ∧
    sampleRun.1.job_count = 10 ∧
    sampleRun.1.loop = 1 ∧
    sampleRun.1.total_jobs_all_time = 10 ∧
    sampleRun.2 = "RRRRR" := by
  refine ⟨rfl, by decide, rfl, rfl, rfl, rfl, rfl, rfl⟩

/-- C10: when the on-disk log exists but cannot be read or parsed,
`save_loop_result` silently falls back to an empty history and rewrites
the file as an array holding only the new record; an absent file behaves
the same, and a parseable file keeps its records and appends. -/
theorem corrupt_log_discards_history (err : String) (history : List LoopData)
    (d : LoopData) :
    save_loop_result (LogFileState.unreadable err) d = [d] ∧
    save_loop_result LogFileState.absent d = [d] ∧
    save_loop_result (LogFileState.parsed history) d = history ++ [d] :=
  ⟨rfl, rfl, rfl⟩

end Luxbin
